import Mathlib

/-!
Verification of the video-decode-bench scheduler against its specification.

The definitions below are a shallow embedding of the C++ sources:
`src/benchmark/benchmark_runner.cpp` (candidate generation, mode selection,
pass criteria, capacity search), `src/decoder/packet_queue.cpp` (bounded
packet queue), `src/decoder/packet_reader.cpp` (reader loop),
`src/decoder/decoder_thread.cpp` and `src/decoder/decoder_pool.cpp`
(worker loops, frame-count publication, flush-marker handling).

Machine integers are modelled by `Nat` (all the quantities involved are
non-negative and far from overflow); `double` quantities that only feed
comparisons are modelled by `Rat`.  Loops are modelled either by explicit
fuel (with the fuel chosen at least as large as the loop's iteration
bound, so behaviour coincides with the C++ loop) or by structural
recursion.  Concurrency is modelled by explicit state passing plus event
traces where the ordering of actions matters.
-/

namespace VideoBench

/-! ### Candidate stream counts — `BenchmarkRunner::getStreamCountsToTest`

C++ (benchmark_runner.cpp, lines 36-64):
  for (int n = 1; n <= 16 && n <= max_streams; n *= 2) counts.push_back(n);
  if (max_streams >= 12 && 12 not in counts) counts.push_back(12);
  for (int n = 20; n <= max_streams; n += 4) counts.push_back(n);
  if (max_streams not in counts) counts.push_back(max_streams);
  sort ascending.
-/

/-- The powers-of-two loop `for (n = 1; n <= 16 && n <= max; n *= 2)`,
with explicit fuel.  Fuel 6 covers n = 1, 2, 4, 8, 16, 32; at n = 32 the
guard `n <= 16` already fails, so fuel 6 is exact. -/
def powTwoLoop : Nat → Nat → Nat → List Nat
  | 0, _, _ => []
  | fuel + 1, n, m => if n ≤ 16 ∧ n ≤ m then n :: powTwoLoop fuel (2 * n) m else []

/-- The linear loop `for (n = start; n <= max; n += 4)`, with explicit fuel. -/
def linearLoopF : Nat → Nat → Nat → List Nat
  | 0, _, _ => []
  | fuel + 1, n, m => if n ≤ m then n :: linearLoopF fuel (n + 4) m else []

/-- The linear loop with fuel `m + 1`, which is enough for any start value:
the loop body runs at most once per value `n ≤ m` and `n` advances by 4. -/
def linearLoop (n m : Nat) : List Nat :=
  linearLoopF (m + 1) n m

/-- `if (max_streams >= 12 && 12 not in counts) counts.push_back(12)`
(benchmark_runner.cpp, lines 45-48; `kExtraStepStreams = 12`). -/
def addExtraStep (max_streams : Nat) (counts : List Nat) : List Nat :=
  if 12 ≤ max_streams ∧ ¬ 12 ∈ counts then counts ++ [12] else counts

/-- `if (max_streams not in counts) counts.push_back(max_streams)`
(benchmark_runner.cpp, lines 56-58). -/
def addMaxStreams (max_streams : Nat) (counts : List Nat) : List Nat :=
  if max_streams ∈ counts then counts else counts ++ [max_streams]

/-- The candidate list before sorting: powers of two, then 12, then the
linear steps from 20, then `max_streams` itself. -/
def rawCounts (max_streams : Nat) : List Nat :=
  addMaxStreams max_streams
    (addExtraStep max_streams (powTwoLoop 6 1 max_streams) ++ linearLoop 20 max_streams)

/-- `BenchmarkRunner::getStreamCountsToTest`.  `std::sort` is modelled by
`List.insertionSort (· ≤ ·)`; on `Nat` the sorted permutation of a list is
unique, so any correct sort yields the same result. -/
def getStreamCountsToTest (max_streams : Nat) : List Nat :=
  (rawCounts max_streams).insertionSort (· ≤ ·)

/-! ### Run configuration — `BenchmarkRunner::runSingleTest` -/

/-- `cpu_cores = std::thread::hardware_concurrency(); if (cpu_cores == 0) cpu_cores = 4;`
(benchmark_runner.cpp, lines 67-68). -/
def effectiveCores (reported : Nat) : Nat :=
  if reported = 0 then 4 else reported

/-- `use_pool = (stream_count >= cpu_cores)` (benchmark_runner.cpp, line 70). -/
def usePool (stream_count cores : Nat) : Bool :=
  cores ≤ stream_count

/-- Decoder thread count in direct mode (benchmark_runner.cpp, lines 92-97):
`stream_count >= 4 ? 1 : max(1, cpu_cores / stream_count)`. -/
def directDecoderThreads (stream_count cores : Nat) : Nat :=
  if 4 ≤ stream_count then 1 else max 1 (cores / stream_count)

/-- The thread-layout decisions of one run: which mode is used, the FFmpeg
decoder thread count, and how many worker / reader threads are spawned.
In direct mode each stream gets one `DecoderThread` (the worker) which
spawns one `PacketReader` thread (lines 100-109 of benchmark_runner.cpp and
line 90 of decoder_thread.cpp); in pooled mode `worker_count = stream_count`
and `reader_count = cpu_cores` (lines 172-173). -/
structure RunCfg where
  pooled : Bool
  decoderThreads : Nat
  workerCount : Nat
  readerCount : Nat
deriving DecidableEq, Repr

/-- Mode selection and thread counts of `BenchmarkRunner::runSingleTest`
as a function of the reported hardware concurrency and the stream count. -/
def runSingleTestConfig (reported stream_count : Nat) : RunCfg :=
  let cores := effectiveCores reported
  if usePool stream_count cores then
    { pooled := true, decoderThreads := 1,
      workerCount := stream_count, readerCount := cores }
  else
    { pooled := false, decoderThreads := directDecoderThreads stream_count cores,
      workerCount := stream_count, readerCount := stream_count }

/-! ### Pass criteria — `BenchmarkRunner::calculateTestResult`, lines 277-280 -/

/-- `kFpsTolerance = 0.98` (benchmark_runner.cpp, line 19). -/
def kFpsTolerance : Rat := 98 / 100

/-- `fps_passed = min_fps >= target_fps * kFpsTolerance`. -/
def fpsPassed (min_fps target_fps : Rat) : Bool :=
  target_fps * kFpsTolerance ≤ min_fps

/-- `cpu_passed = cpu_usage <= cpu_threshold`. -/
def cpuPassed (cpu_usage cpu_threshold : Rat) : Bool :=
  cpu_usage ≤ cpu_threshold

/-- `passed = fps_passed && cpu_passed`. -/
def runPassed (min_fps target_fps cpu_usage cpu_threshold : Rat) : Bool :=
  fpsPassed min_fps target_fps && cpuPassed cpu_usage cpu_threshold

/-! ### Capacity search — `BenchmarkRunner::run`, lines 283-368

We model an error-free execution: `runSingleTest` is abstracted by a pass
oracle `passFn : Nat → Bool` giving the outcome of the run at each stream
count (each probe "is a full run").  The search records every test in
order as a `(stream_count, passed)` pair; `last_passing` starts at 0. -/

/-- The binary-search loop (lines 336-358).  `mid = low + (high - low) / 2`;
a passing probe sets `last_passing = mid; low = mid + 1`, a failing one
sets `high = mid - 1`; the loop ends when `low > high`.  The loop is
modelled with fuel; any fuel at least `hi + 1 - lo` (the interval width,
which shrinks by at least one per iteration) makes it equal to the C++
loop.  The search is only entered with `last_passing > 0`, hence
`lo = last_passing + 1 ≥ 2`, so `mid - 1` never underflows. -/
def binarySearchProbe (passFn : Nat → Bool) :
    Nat → Nat → Nat → Nat → List (Nat × Bool) × Nat
  | 0, _, _, lp => ([], lp)
  | fuel + 1, lo, hi, lp =>
    if lo ≤ hi then
      let mid := lo + (hi - lo) / 2
      if passFn mid then
        let r := binarySearchProbe passFn fuel (mid + 1) hi mid
        ((mid, true) :: r.1, r.2)
      else
        let r := binarySearchProbe passFn fuel lo (mid - 1) lp
        ((mid, false) :: r.1, r.2)
    else ([], lp)

/-- The sequential phase (lines 313-362): run each candidate in order; a
pass updates `last_passing`; the first failure at `count` is recorded and,
when `last_passing > 0` and `count - last_passing > 1` (evaluated in `Int`
as in C++), triggers the binary search on `[last_passing + 1, count - 1]`,
after which the loop breaks.  Returns the list of recorded tests and the
final `last_passing`. -/
def seqPhase (passFn : Nat → Bool) : List Nat → Nat → List (Nat × Bool) × Nat
  | [], lp => ([], lp)
  | c :: rest, lp =>
    if passFn c then
      let r := seqPhase passFn rest c
      ((c, true) :: r.1, r.2)
    else
      if 0 < lp ∧ 1 < (c : Int) - (lp : Int) then
        let r := binarySearchProbe passFn (c - lp) (lp + 1) (c - 1) lp
        ((c, false) :: r.1, r.2)
      else
        ([(c, false)], lp)

/-- `BenchmarkRunner::run` on an error-free execution: tests the generated
candidates starting from `last_passing = 0`; the first component is the
recorded test list (`result.test_results`, projected to stream count and
`passed`), the second is `result.max_streams = last_passing`. -/
def benchmarkRun (passFn : Nat → Bool) (max_streams : Nat) : List (Nat × Bool) × Nat :=
  seqPhase passFn (getStreamCountsToTest max_streams) 0

/-- Greatest tested stream count whose run passed, or 0 if no run passed. -/
def maxPassed (tests : List (Nat × Bool)) : Nat :=
  tests.foldr (fun t acc => if t.2 then max t.1 acc else acc) 0

/-! ### Bounded packet queue — `PacketQueue`, packet_queue.cpp

An item of the queue is either an owned packet or the flush-marker
sentinel (`nullptr` in the C++). -/

/-- A queue item: an owned compressed packet (identified by a tag) or the
flush-marker sentinel (`nullptr`). -/
inductive QItem where
  | pkt (id : Nat)
  | marker
deriving DecidableEq, Repr

/-- Queue state as observed under the mutex: pending items (front first),
the `eof_` flag, and whether a space-callback is registered. -/
structure QState where
  items : List QItem
  eof : Bool
  hasCallback : Bool
deriving DecidableEq, Repr

/-- The predicate `pop` waits on (packet_queue.cpp, lines 71-73):
`!queue_.empty() || eof_`.  A condition-variable wait whose predicate is
already true returns without blocking, so `eof` set and queue empty never
blocks `pop`. -/
def popWaitPred (st : QState) : Bool :=
  !st.items.isEmpty || st.eof

/-- Events of one `pop` call whose relative order the spec constrains. -/
inductive QEvent where
  | lockAcquire
  | lockRelease
  | callbackFired
deriving DecidableEq, Repr

/-- `PacketQueue::pop` (lines 63-91) as a function of the queue state at
the moment the wait ended (predicate satisfied or timeout elapsed): pops
the front item iff the queue is non-empty (`has_data && !queue_.empty()`
where `has_data` is the wait predicate at return, which is implied by
non-emptiness). -/
def queuePop (st : QState) : Option QItem × QState :=
  match st.items with
  | [] => (none, st)
  | x :: rest => (some x, { st with items := rest })

/-- The event trace of one `pop` call: the lock is acquired and released;
after the release, the space-callback fires iff the pop was successful and
a callback is registered (lines 83-87). -/
def popEvents (st : QState) : List QEvent :=
  match st.items with
  | [] => [QEvent.lockAcquire, QEvent.lockRelease]
  | _ :: _ =>
    [QEvent.lockAcquire, QEvent.lockRelease] ++
      (if st.hasCallback then [QEvent.callbackFired] else [])

/-! ### Packet reader — `PacketReader::run`, packet_reader.cpp lines 61-106 -/

/-- Outcome of one `av_read_frame` call. -/
inductive ReadOutcome where
  | packet (isVideo : Bool)
  | eofRead
  | readErr (msg : String)
deriving DecidableEq, Repr

/-- Observable actions of the reader loop. -/
inductive RAction where
  | seekToStart
  | pushFlushMarker
  | pushPacket
  | discardPacket
  | recordError (msg : String)
  | signalEof
deriving DecidableEq, Repr

/-- Reader state: live-vs-file mode and the error cell. -/
structure RState where
  isLive : Bool
  hasError : Bool
  errorMsg : String
deriving DecidableEq, Repr

/-- Inputs consumed by one loop iteration: the stop flag sampled by the
`while` guard, the read outcome, whether a `push` attempt succeeded within
its timeout, and the stop flag re-sampled after a failed push (line 93). -/
structure RInput where
  stop1 : Bool
  outcome : ReadOutcome
  pushOk : Bool
  stop2 : Bool
deriving DecidableEq, Repr

/-- One iteration of `PacketReader::run`'s loop: produced actions, updated
state, and whether the loop exits.  Mirrors lines 64-102:
stop flag ⇒ exit; live EOF ⇒ record "Stream ended", exit; file EOF ⇒ seek
to start, push a flush marker (with timeout), continue; read error ⇒
record it, exit; video packet ⇒ push with timeout, on push timeout re-check
the stop flag (exit if set, else retry); non-video packet ⇒ drop. -/
def readerStep (st : RState) (i : RInput) : List RAction × RState × Bool :=
  if i.stop1 then ([], st, true)
  else
    match i.outcome with
    | ReadOutcome.eofRead =>
      if st.isLive then
        ([RAction.recordError "Stream ended"],
         { st with hasError := true, errorMsg := "Stream ended" }, true)
      else
        ([RAction.seekToStart, RAction.pushFlushMarker], st, false)
    | ReadOutcome.readErr m =>
      ([RAction.recordError ("Read error: " ++ m)],
       { st with hasError := true, errorMsg := "Read error: " ++ m }, true)
    | ReadOutcome.packet isVideo =>
      if isVideo then
        if i.pushOk then ([RAction.pushPacket], st, false)
        else ([RAction.discardPacket], st, i.stop2)
      else ([RAction.discardPacket], st, false)

/-- `PacketReader::run` over a finite window of iteration inputs: returns
`some trace` when the loop exits within the window (`queue_.signalEof()`
on line 105 runs after the loop on every exit path), `none` if the loop is
still running when the window ends. -/
def readerRun (st : RState) : List RInput → Option (List RAction)
  | [] => none
  | i :: rest =>
    let s := readerStep st i
    if s.2.2 then some (s.1 ++ [RAction.signalEof])
    else (readerRun s.2.1 rest).map (s.1 ++ ·)

/-! ### Worker frame counting — decoder_thread.cpp lines 100-179,
decoder_pool.cpp lines 213-284 and 411-432

`total_frames` is the worker's private counter; `frames_decoded` is the
published atomic.  `kBatchSize = 16`. -/

/-- `kBatchSize = 16`. -/
def kBatchSize : Nat := 16

/-- Worker counter state: the private `total_frames` and the published
`frames_decoded`. -/
structure WState where
  totalFrames : Nat
  framesDecoded : Nat
deriving DecidableEq, Repr

/-- One loop iteration's effect on the counters.  `frame` models an
iteration whose decode produced a frame: `total_frames++`, and when
`total_frames % kBatchSize == 0` the worker publishes
`frames_decoded = total_frames`.  `noFrame` models every other iteration
(pop timeout, flush marker, buffering decode): the counters are untouched. -/
inductive DecodeEvent where
  | frame
  | noFrame
deriving DecidableEq, Repr

/-- The counter update of one worker-loop iteration. -/
def workerTick (s : WState) : DecodeEvent → WState
  | DecodeEvent.noFrame => s
  | DecodeEvent.frame =>
    let t := s.totalFrames + 1
    if t % kBatchSize = 0 then ⟨t, t⟩ else ⟨t, s.framesDecoded⟩

/-- Every counter state reached during the run (initial state included). -/
def workerStates (events : List DecodeEvent) : List WState :=
  events.scanl workerTick ⟨0, 0⟩

/-- The counter state when the worker loop ends. -/
def workerFinal (events : List DecodeEvent) : WState :=
  events.foldl workerTick ⟨0, 0⟩

/-- The post-join drain (decoder_thread.cpp lines 170-179, decoder_pool.cpp
lines 420-431): `flush_decoder` is called repeatedly, each produced frame
increments `total_frames` (`drained` frames in all), then the final
`frames_decoded = total_frames` is published. -/
def joinFlush (drained : Nat) (s : WState) : WState :=
  let t := s.totalFrames + drained
  ⟨t, t⟩

/-! ### Flush-marker handling in the single-stream fast paths

`DecoderPool::workerLoopSingle` (decoder_pool.cpp lines 242-247) checks the
popped item for the `nullptr` sentinel and calls
`ctx.decoder->flushBuffers()`; `DecoderThread::run`
(decoder_thread.cpp lines 130-134) performs no such check and passes the
popped pointer straight to `decoder.decodeFromPacket(packet)`. -/

/-- What a worker does with a successfully popped queue item. -/
inductive WorkerAction where
  | flushBuffers
  | decodeFromPacket (p : QItem)
deriving DecidableEq, Repr

/-- Packet handling in `DecoderThread::run` (decoder_thread.cpp, lines
130-133): `AVPacket* packet = *packet_opt; ... decoder.decodeFromPacket(packet);`
— the popped pointer, flush marker included, is submitted to the decoder. -/
def decoderThreadHandle (x : QItem) : WorkerAction :=
  WorkerAction.decodeFromPacket x

/-- Packet handling in `DecoderPool::workerLoopSingle` (decoder_pool.cpp,
lines 242-249): `if (!packet) { ctx.decoder->flushBuffers(); continue; }`
then `decodeFromPacket(packet)`. -/
def workerLoopSingleHandle (x : QItem) : WorkerAction :=
  match x with
  | QItem.marker => WorkerAction.flushBuffers
  | QItem.pkt i => WorkerAction.decodeFromPacket (QItem.pkt i)

/-! ## Lemmas on the candidate list -/

theorem powTwoLoop_six_one (m : Nat) :
    powTwoLoop 6 1 m = [1, 2, 4, 8, 16].filter (fun x => x ≤ m) := by
  by_cases h1 : 1 ≤ m <;> by_cases h2 : 2 ≤ m <;> by_cases h4 : 4 ≤ m <;>
      by_cases h8 : 8 ≤ m <;> by_cases h16 : 16 ≤ m <;>
    first
      | (exfalso; omega)
      | simp [powTwoLoop, h1, h2, h4, h8, h16, List.filter_cons]

theorem mem_linearLoopF :
    ∀ (f n m x : Nat), x ∈ linearLoopF f n m ↔ ∃ k, k < f ∧ x = n + 4 * k ∧ x ≤ m := by
  intro f
  induction f with
  | zero =>
    intro n m x
    constructor
    · intro hx; simp [linearLoopF] at hx
    · rintro ⟨k, hk, _, _⟩; omega
  | succ f ih =>
    intro n m x
    simp only [linearLoopF]
    by_cases h : n ≤ m
    · rw [if_pos h]
      simp only [List.mem_cons, ih]
      constructor
      · rintro (rfl | ⟨k, hk, rfl, hx⟩)
        · exact ⟨0, by omega, by omega, h⟩
        · exact ⟨k + 1, by omega, by omega, hx⟩
      · rintro ⟨k, hk, rfl, hx⟩
        cases k with
        | zero => left; omega
        | succ k => right; exact ⟨k, by omega, by omega, hx⟩
    · rw [if_neg h]
      constructor
      · intro hx; simp at hx
      · rintro ⟨k, hk, rfl, hx⟩; omega

theorem mem_linearLoop (n m x : Nat) :
    x ∈ linearLoop n m ↔ ∃ k, x = n + 4 * k ∧ x ≤ m := by
  rw [linearLoop, mem_linearLoopF]
  constructor
  · rintro ⟨k, _, rfl, hx⟩; exact ⟨k, rfl, hx⟩
  · rintro ⟨k, rfl, hx⟩; exact ⟨k, by omega, rfl, hx⟩

theorem linearLoopF_sorted : ∀ (f n m : Nat), (linearLoopF f n m).Sorted (· < ·) := by
  intro f
  induction f with
  | zero => intro n m; simp [linearLoopF]
  | succ f ih =>
    intro n m
    simp only [linearLoopF]
    by_cases h : n ≤ m
    · rw [if_pos h]
      refine List.sorted_cons.mpr ⟨?_, ih (n + 4) m⟩
      intro b hb
      rw [mem_linearLoopF] at hb
      obtain ⟨k, _, rfl, _⟩ := hb
      omega
    · rw [if_neg h]; simp

theorem mem_addMaxStreams (m : Nat) (c : List Nat) (x : Nat) :
    x ∈ addMaxStreams m c ↔ x ∈ c ∨ x = m := by
  unfold addMaxStreams
  by_cases h : m ∈ c
  · rw [if_pos h]
    constructor
    · exact Or.inl
    · rintro (hx | rfl)
      · exact hx
      · exact h
  · rw [if_neg h]; simp

theorem mem_addExtraStep (m : Nat) (c : List Nat) (h12 : ¬ 12 ∈ c) (x : Nat) :
    x ∈ addExtraStep m c ↔ x ∈ c ∨ (x = 12 ∧ 12 ≤ m) := by
  unfold addExtraStep
  by_cases hm : 12 ≤ m
  · rw [if_pos ⟨hm, h12⟩]
    simp [hm]
  · rw [if_neg (by tauto)]
    simp [hm]

theorem not_twelve_mem_powTwoLoop (m : Nat) : ¬ 12 ∈ powTwoLoop 6 1 m := by
  rw [powTwoLoop_six_one]
  intro h
  have := (List.mem_filter.mp h).1
  simp at this

theorem mem_rawCounts (m x : Nat) :
    x ∈ rawCounts m ↔
      (x ∈ [1, 2, 4, 8, 16] ∧ x ≤ m) ∨ (x = 12 ∧ 12 ≤ m) ∨
      (∃ k, x = 20 + 4 * k ∧ x ≤ m) ∨ x = m := by
  unfold rawCounts
  rw [mem_addMaxStreams, List.mem_append,
      mem_addExtraStep m _ (not_twelve_mem_powTwoLoop m),
      powTwoLoop_six_one, List.mem_filter, mem_linearLoop]
  simp only [decide_eq_true_eq]
  rw [or_assoc, or_assoc]

theorem rawCounts_nodup (m : Nat) : (rawCounts m).Nodup := by
  have hpow : (powTwoLoop 6 1 m).Nodup := by
    rw [powTwoLoop_six_one]
    exact List.Nodup.filter _ (by decide)
  have hpow_le : ∀ x ∈ powTwoLoop 6 1 m, x ≤ 16 := by
    intro x hx
    rw [powTwoLoop_six_one] at hx
    have := (List.mem_filter.mp hx).1
    fin_cases this <;> omega
  have hextra : (addExtraStep m (powTwoLoop 6 1 m)).Nodup := by
    unfold addExtraStep
    by_cases h : 12 ≤ m ∧ ¬ 12 ∈ powTwoLoop 6 1 m
    · rw [if_pos h]
      rw [List.nodup_append]
      refine ⟨hpow, by simp, ?_⟩
      intro x hx hx'
      simp at hx'
      subst hx'
      exact h.2 hx
    · rw [if_neg h]; exact hpow
  have hextra_le : ∀ x ∈ addExtraStep m (powTwoLoop 6 1 m), x ≤ 16 := by
    intro x hx
    rw [mem_addExtraStep m _ (not_twelve_mem_powTwoLoop m)] at hx
    rcases hx with hx | ⟨rfl, _⟩
    · exact hpow_le x hx
    · omega
  have hlin : (linearLoop 20 m).Nodup :=
    List.Sorted.nodup (linearLoopF_sorted (m + 1) 20 m)
  have happ : (addExtraStep m (powTwoLoop 6 1 m) ++ linearLoop 20 m).Nodup := by
    rw [List.nodup_append]
    refine ⟨hextra, hlin, ?_⟩
    intro x hx hx'
    rw [mem_linearLoop] at hx'
    obtain ⟨k, rfl, _⟩ := hx'
    have := hextra_le _ hx
    omega
  unfold rawCounts addMaxStreams
  by_cases h : m ∈ addExtraStep m (powTwoLoop 6 1 m) ++ linearLoop 20 m
  · rw [if_pos h]; exact happ
  · rw [if_neg h]
    rw [List.nodup_append]
    refine ⟨happ, by simp, ?_⟩
    intro x hx hx'
    simp at hx'
    subst hx'
    exact h hx

theorem sorted_lt_of_le_nodup {l : List Nat}
    (hs : l.Sorted (· ≤ ·)) (hn : l.Nodup) : l.Sorted (· < ·) := by
  induction l with
  | nil => simp
  | cons a l ih =>
    rw [List.sorted_cons] at hs ⊢
    rw [List.nodup_cons] at hn
    refine ⟨fun b hb => lt_of_le_of_ne (hs.1 b hb) ?_, ih hs.2 hn.2⟩
    intro heq
    subst heq
    exact hn.1 hb

theorem getStreamCountsToTest_sorted (m : Nat) :
    (getStreamCountsToTest m).Sorted (· < ·) := by
  apply sorted_lt_of_le_nodup
  · exact List.sorted_insertionSort _ _
  · exact (List.perm_insertionSort _ _).nodup_iff.mpr (rawCounts_nodup m)

theorem mem_getStreamCountsToTest (m x : Nat) :
    x ∈ getStreamCountsToTest m ↔
      (x ∈ [1, 2, 4, 8, 16] ∧ x ≤ m) ∨ (x = 12 ∧ 12 ≤ m) ∨
      (∃ k, x = 20 + 4 * k ∧ x ≤ m) ∨ x = m := by
  rw [getStreamCountsToTest, (List.perm_insertionSort _ _).mem_iff, mem_rawCounts]

theorem one_le_of_mem_getStreamCountsToTest {m x : Nat} (hm : 1 ≤ m)
    (hx : x ∈ getStreamCountsToTest m) : 1 ≤ x := by
  rw [mem_getStreamCountsToTest] at hx
  rcases hx with ⟨hmem, _⟩ | ⟨rfl, _⟩ | ⟨k, rfl, _⟩ | rfl
  · fin_cases hmem <;> omega
  · omega
  · omega
  · exact hm

/-! ## Lemmas on the capacity search -/

theorem maxPassed_cons (a : Nat × Bool) (l : List (Nat × Bool)) :
    maxPassed (a :: l) = if a.2 then max a.1 (maxPassed l) else maxPassed l := rfl

theorem le_maxPassed {tests : List (Nat × Bool)} {t : Nat × Bool}
    (ht : t ∈ tests) (hp : t.2 = true) : t.1 ≤ maxPassed tests := by
  induction tests with
  | nil => simp at ht
  | cons a l ih =>
    rw [List.mem_cons] at ht
    rw [maxPassed_cons]
    rcases ht with rfl | ht
    · rw [hp, if_pos rfl]
      exact le_max_left _ _
    · have := ih ht
      by_cases ha : a.2 = true
      · rw [if_pos ha]
        exact le_trans this (le_max_right _ _)
      · rw [if_neg ha]
        exact this

theorem maxPassed_mem {tests : List (Nat × Bool)} (h : maxPassed tests ≠ 0) :
    (maxPassed tests, true) ∈ tests := by
  induction tests with
  | nil => simp [maxPassed] at h
  | cons a l ih =>
    obtain ⟨a1, a2⟩ := a
    rw [maxPassed_cons] at h ⊢
    by_cases ha : a2 = true
    · subst ha
      simp only [if_pos rfl] at h ⊢
      rcases le_total a1 (maxPassed l) with hle | hle
      · rw [max_eq_right hle] at h ⊢
        exact List.mem_cons_of_mem _ (ih h)
      · rw [max_eq_left hle] at h ⊢
        exact List.mem_cons_self _ _
    · rw [Bool.not_eq_true] at ha
      subst ha
      simp only [Bool.false_eq_true, if_false] at h ⊢
      exact List.mem_cons_of_mem _ (ih h)

theorem maxPassed_eq_zero {tests : List (Nat × Bool)}
    (h : ∀ t ∈ tests, t.2 = false) : maxPassed tests = 0 := by
  induction tests with
  | nil => rfl
  | cons a l ih =>
    rw [maxPassed_cons, h a (List.mem_cons_self _ _)]
    simp only [Bool.false_eq_true, if_false]
    exact ih fun t ht => h t (List.mem_cons_of_mem _ ht)

theorem binarySearchProbe_lastPassing (passFn : Nat → Bool) :
    ∀ (f lo hi lp : Nat), lp < lo →
      (binarySearchProbe passFn f lo hi lp).2 =
        max lp (maxPassed (binarySearchProbe passFn f lo hi lp).1) := by
  intro f
  induction f with
  | zero =>
    intro lo hi lp _
    simp [binarySearchProbe, maxPassed]
  | succ f ih =>
    intro lo hi lp hlp
    simp only [binarySearchProbe]
    by_cases hle : lo ≤ hi
    · rw [if_pos hle]
      have hmid : lo ≤ lo + (hi - lo) / 2 := Nat.le_add_right _ _
      by_cases hp : passFn (lo + (hi - lo) / 2) = true
      · rw [if_pos hp]
        have hrec := ih (lo + (hi - lo) / 2 + 1) hi (lo + (hi - lo) / 2) (by omega)
        simp only [maxPassed_cons, if_pos rfl, if_true, hrec]
        omega
      · rw [if_neg hp]
        have hrec := ih lo (lo + (hi - lo) / 2 - 1) lp hlp
        simp only [maxPassed_cons, Bool.false_eq_true, if_false, hrec]
    · rw [if_neg hle]
      simp [maxPassed]

theorem seqPhase_lastPassing (passFn : Nat → Bool) :
    ∀ (l : List Nat) (lp : Nat), l.Sorted (· < ·) → (∀ x ∈ l, lp < x) →
      (seqPhase passFn l lp).2 = max lp (maxPassed (seqPhase passFn l lp).1) := by
  intro l
  induction l with
  | nil =>
    intro lp _ _
    simp [seqPhase, maxPassed]
  | cons c rest ih =>
    intro lp hsort hlt
    rw [List.sorted_cons] at hsort
    have hlpc : lp < c := hlt c (List.mem_cons_self _ _)
    simp only [seqPhase]
    by_cases hp : passFn c = true
    · rw [if_pos hp]
      have hrec := ih c hsort.2 hsort.1
      simp only [maxPassed_cons, if_pos rfl, if_true, hrec]
      omega
    · rw [if_neg hp]
      by_cases hg : 0 < lp ∧ 1 < (c : Int) - (lp : Int)
      · rw [if_pos hg]
        have hrec := binarySearchProbe_lastPassing passFn (c - lp) (lp + 1) (c - 1) lp
          (Nat.lt_succ_self _)
        simp only [maxPassed_cons, Bool.false_eq_true, if_false, hrec]
      · rw [if_neg hg]
        simp [maxPassed_cons, maxPassed]

/-! ## Claim theorems -/

/-- C1: the capacity search runs the ascending candidates sequentially,
refines the first failure by the binary search described in the spec (both
by construction of `seqPhase` and `binarySearchProbe`), and the returned
`max_streams` equals the greatest tested stream count whose run passed, or
0 if no run passed. -/
theorem capacity_search_max_streams (passFn : Nat → Bool) (m : Nat) (hm : 1 ≤ m) :
    (benchmarkRun passFn m).2 = maxPassed (benchmarkRun passFn m).1 ∧
    (∀ t ∈ (benchmarkRun passFn m).1, t.2 = true → t.1 ≤ (benchmarkRun passFn m).2) ∧
    ((benchmarkRun passFn m).2 ≠ 0 →
      ((benchmarkRun passFn m).2, true) ∈ (benchmarkRun passFn m).1) ∧
    ((∀ t ∈ (benchmarkRun passFn m).1, t.2 = false) → (benchmarkRun passFn m).2 = 0) := by
  have hmax : (benchmarkRun passFn m).2 = maxPassed (benchmarkRun passFn m).1 := by
    have h := seqPhase_lastPassing passFn (getStreamCountsToTest m) 0
      (getStreamCountsToTest_sorted m)
      (fun x hx => one_le_of_mem_getStreamCountsToTest hm hx)
    simpa [benchmarkRun, Nat.zero_max] using h
  refine ⟨hmax, ?_, ?_, ?_⟩
  · intro t ht hp
    rw [hmax]
    exact le_maxPassed ht hp
  · intro h
    rw [hmax] at h ⊢
    exact maxPassed_mem h
  · intro h
    rw [hmax]
    exact maxPassed_eq_zero h

/-- Witness for C1, at the spec's scenario S5: `max_streams = 20`, runs
pass exactly for `N ≤ 6`; the search reports capacity 6. -/
theorem capacity_search_max_streams_witness :
    1 ≤ 20 ∧
    (benchmarkRun (fun n => decide (n ≤ 6)) 20).2 =
      maxPassed (benchmarkRun (fun n => decide (n ≤ 6)) 20).1 ∧
    (benchmarkRun (fun n => decide (n ≤ 6)) 20).2 = 6 ∧
    (benchmarkRun (fun n => decide (n ≤ 6)) 20).1 =
      [(1, true), (2, true), (4, true), (8, false), (6, true), (7, false)] :=
  ⟨by decide, (capacity_search_max_streams (fun n => decide (n ≤ 6)) 20 (by decide)).1,
   by decide, by decide⟩

/-- C3: for every run with effective core count `cpu_cores ≥ 1` and stream
count `n`: if `n < cpu_cores` the run is direct with one reader and one
worker per stream and `decoder_threads = max(1, cpu_cores / n)` for
`n < 4`, else 1; if `n ≥ cpu_cores` the run is pooled with
`worker_count = n`, `reader_count = cpu_cores`, `decoder_threads = 1`. -/
theorem run_mode_selection (cpu_cores n : Nat) (hc : 0 < cpu_cores) :
    (n < cpu_cores →
      runSingleTestConfig cpu_cores n =
        { pooled := false,
          decoderThreads := if n < 4 then max 1 (cpu_cores / n) else 1,
          workerCount := n, readerCount := n }) ∧
    (cpu_cores ≤ n →
      runSingleTestConfig cpu_cores n =
        { pooled := true, decoderThreads := 1,
          workerCount := n, readerCount := cpu_cores }) := by
  have hcore : effectiveCores cpu_cores = cpu_cores := by
    unfold effectiveCores
    rw [if_neg (by omega)]
  constructor
  · intro hlt
    have hpool : usePool n cpu_cores = false := by
      simp only [usePool, decide_eq_false_iff_not]
      omega
    simp only [runSingleTestConfig, hcore, hpool, Bool.false_eq_true, if_false]
    unfold directDecoderThreads
    by_cases h4 : 4 ≤ n
    · rw [if_pos h4, if_neg (by omega)]
    · rw [if_neg h4, if_pos (by omega)]
  · intro hle
    have hpool : usePool n cpu_cores = true := by
      simp only [usePool, decide_eq_true_eq]
      omega
    simp only [runSingleTestConfig, hcore, hpool, if_true]

/-- Witness for C3: on an 8-core host, 2 streams run direct with 4 decoder
threads each, 9 streams run pooled with 9 workers and 8 readers. -/
theorem run_mode_selection_witness :
    0 < 8 ∧ (2 : Nat) < 8 ∧ (8 : Nat) ≤ 9 ∧
    runSingleTestConfig 8 2 =
      { pooled := false, decoderThreads := if 2 < 4 then max 1 (8 / 2) else 1,
        workerCount := 2, readerCount := 2 } ∧
    runSingleTestConfig 8 9 =
      { pooled := true, decoderThreads := 1, workerCount := 9, readerCount := 8 } :=
  ⟨by decide, by decide, by decide,
   (run_mode_selection 8 2 (by decide)).1 (by decide),
   (run_mode_selection 8 9 (by decide)).2 (by decide)⟩

/-- C4, counterexample: the claim "N = 1 never selects the pooled path"
fails on a host whose reported hardware concurrency is 1, where
`use_pool = (1 >= 1)` holds. -/
theorem single_stream_not_always_direct :
    ¬ ∀ reported : Nat, (runSingleTestConfig reported 1).pooled = false :=
  fun h => absurd (h 1) (by decide)

/-- C4, amended: a run with stream count 1 selects the direct path for
every reported core count other than 1; on a host reporting exactly one
core it selects the pooled path. -/
theorem single_stream_direct_unless_one_core (reported : Nat) (h1 : reported ≠ 1) :
    (runSingleTestConfig reported 1).pooled = false ∧
    (runSingleTestConfig 1 1).pooled = true := by
  refine ⟨?_, by decide⟩
  by_cases h0 : reported = 0
  · subst h0
    decide
  · have hc : effectiveCores reported = reported := by
      unfold effectiveCores
      rw [if_neg h0]
    have hp : usePool 1 reported = false := by
      simp only [usePool, decide_eq_false_iff_not]
      omega
    simp only [runSingleTestConfig, hc, hp, Bool.false_eq_true, if_false]

/-- Witness for the amended C4 at reported core count 2. -/
theorem single_stream_direct_unless_one_core_witness :
    (2 : Nat) ≠ 1 ∧ (runSingleTestConfig 2 1).pooled = false :=
  ⟨by decide, (single_stream_direct_unless_one_core 2 (by decide)).1⟩

/-- C5: `fps_passed` holds iff `min_fps ≥ target_fps × 0.98` (so exactly
`0.98 × F` passes and `0.979 × F` fails for positive `F`), `cpu_passed`
holds iff `cpu_usage ≤ cpu_threshold` (the exact threshold passes), and
`passed` is their conjunction. -/
theorem pass_criteria_spec (min_fps target_fps cpu_usage cpu_threshold : Rat)
    (hF : 0 < target_fps) :
    (fpsPassed min_fps target_fps = true ↔ target_fps * (98 / 100) ≤ min_fps) ∧
    (cpuPassed cpu_usage cpu_threshold = true ↔ cpu_usage ≤ cpu_threshold) ∧
    (runPassed min_fps target_fps cpu_usage cpu_threshold = true ↔
      (fpsPassed min_fps target_fps = true ∧ cpuPassed cpu_usage cpu_threshold = true)) ∧
    fpsPassed (target_fps * (98 / 100)) target_fps = true ∧
    fpsPassed (target_fps * (979 / 1000)) target_fps = false ∧
    cpuPassed cpu_threshold cpu_threshold = true := by
  refine ⟨?_, ?_, ?_, ?_, ?_, ?_⟩
  · simp [fpsPassed, kFpsTolerance]
  · simp [cpuPassed]
  · simp [runPassed]
  · simp [fpsPassed, kFpsTolerance]
  · simp only [fpsPassed, kFpsTolerance, decide_eq_false_iff_not, not_le]
    have h : (979 : Rat) / 1000 < 98 / 100 := by norm_num
    exact mul_lt_mul_of_pos_left h hF
  · simp [cpuPassed]

/-- Witness for C5 at target fps 30 and threshold 85. -/
theorem pass_criteria_spec_witness :
    (0 : Rat) < 30 ∧
    fpsPassed (30 * (98 / 100)) 30 = true ∧
    fpsPassed (30 * (979 / 1000)) 30 = false ∧
    cpuPassed 85 85 = true :=
  ⟨by norm_num, (pass_criteria_spec 29 30 80 85 (by norm_num)).2.2.2.1,
   (pass_criteria_spec 29 30 80 85 (by norm_num)).2.2.2.2.1,
   (pass_criteria_spec 29 30 80 85 (by norm_num)).2.2.2.2.2⟩

/-- C6: for every `max_streams ≥ 1` the candidate list is strictly
ascending (hence duplicate-free) and contains exactly the powers of two
up to 16 that are at most `max_streams`, the value 12 when
`max_streams ≥ 12`, the arithmetic progression 20, 24, 28, … up to
`max_streams`, and `max_streams` itself; `max_streams = 1` yields `[1]`. -/
theorem stream_counts_spec (m : Nat) (_hm : 1 ≤ m) :
    (getStreamCountsToTest m).Sorted (· < ·) ∧
    (∀ x, x ∈ getStreamCountsToTest m ↔
      (x ∈ [1, 2, 4, 8, 16] ∧ x ≤ m) ∨ (x = 12 ∧ 12 ≤ m) ∨
      (∃ k, x = 20 + 4 * k ∧ x ≤ m) ∨ x = m) ∧
    getStreamCountsToTest 1 = [1] :=
  ⟨getStreamCountsToTest_sorted m, fun x => mem_getStreamCountsToTest m x, by decide⟩

/-- Witness for C6 at `max_streams = 12`. -/
theorem stream_counts_spec_witness :
    1 ≤ 12 ∧ (getStreamCountsToTest 12).Sorted (· < ·) ∧
    getStreamCountsToTest 12 = [1, 2, 4, 8, 12] :=
  ⟨by decide, (stream_counts_spec 12 (by decide)).1, by decide⟩

/-- C10: a reported hardware concurrency of 0 is substituted by 4, so the
mode selection and all thread counts agree with a 4-core host for every
stream count. -/
theorem zero_cores_behaves_as_four (n : Nat) :
    runSingleTestConfig 0 n = runSingleTestConfig 4 n := rfl

/-- C7: `pop` returns none exactly when the wait ended with the queue
empty; a successful pop fires the registered space-callback exactly once
and only after the lock-release event; and the wait predicate is already
true when `eof` is set, so `pop` never blocks past its timeout then. -/
theorem queue_pop_spec (st : QState) :
    ((queuePop st).1 = none ↔ st.items = []) ∧
    ((queuePop st).1 ≠ none →
      (popEvents st).count QEvent.callbackFired = (if st.hasCallback then 1 else 0)) ∧
    (∀ i : Nat, (popEvents st)[i]? = some QEvent.callbackFired →
      ∃ j : Nat, j < i ∧ (popEvents st)[j]? = some QEvent.lockRelease) ∧
    (st.eof = true → popWaitPred st = true) := by
  obtain ⟨items, eof, hcb⟩ := st
  refine ⟨?_, ?_, ?_, ?_⟩
  · cases items <;> simp [queuePop]
  · intro h
    cases items with
    | nil => simp [queuePop] at h
    | cons x rest => cases hcb <;> rfl
  · intro i hi
    cases items with
    | nil =>
      rcases i with _ | _ | i <;> simp [popEvents] at hi
    | cons x rest =>
      cases hcb with
      | false => rcases i with _ | _ | i <;> simp [popEvents] at hi
      | true =>
        rcases i with _ | _ | _ | i
        · simp [popEvents] at hi
        · simp [popEvents] at hi
        · exact ⟨1, by omega, rfl⟩
        · simp [popEvents] at hi
  · intro h
    subst h
    simp [popWaitPred]

/-- Witness for C7: popping from a queue holding one packet with a
registered callback, and the wait predicate on an empty queue at EOF. -/
theorem queue_pop_spec_witness :
    (queuePop ⟨[QItem.pkt 0], false, true⟩).1 ≠ none ∧
    (popEvents ⟨[QItem.pkt 0], false, true⟩).count QEvent.callbackFired = 1 ∧
    (∃ j : Nat, j < 2 ∧ (popEvents ⟨[QItem.pkt 0], false, true⟩)[j]? = some QEvent.lockRelease) ∧
    popWaitPred ⟨[], true, false⟩ = true :=
  ⟨by decide, (queue_pop_spec ⟨[QItem.pkt 0], false, true⟩).2.1 (by decide),
   (queue_pop_spec ⟨[QItem.pkt 0], false, true⟩).2.2.1 2 (by decide),
   (queue_pop_spec ⟨[], true, false⟩).2.2.2 rfl⟩

/-- C8: the reader loop records "Stream ended" and exits on EOF in live
mode; seeks to start, pushes a flush marker and continues on EOF in file
mode; and every completed run of the loop ends with `signal_eof`. -/
theorem reader_run_spec (st : RState) (pushOk stop2 : Bool) :
    (st.isLive = true →
      readerStep st ⟨false, ReadOutcome.eofRead, pushOk, stop2⟩ =
        ([RAction.recordError "Stream ended"],
         { st with hasError := true, errorMsg := "Stream ended" }, true)) ∧
    (st.isLive = false →
      readerStep st ⟨false, ReadOutcome.eofRead, pushOk, stop2⟩ =
        ([RAction.seekToStart, RAction.pushFlushMarker], st, false)) ∧
    (∀ inputs trace, readerRun st inputs = some trace →
      ∃ pre, trace = pre ++ [RAction.signalEof]) := by
  refine ⟨?_, ?_, ?_⟩
  · intro h
    simp [readerStep, h]
  · intro h
    simp [readerStep, h]
  · intro inputs
    induction inputs generalizing st with
    | nil =>
      intro trace h
      simp [readerRun] at h
    | cons i rest ih =>
      intro trace h
      simp only [readerRun] at h
      split at h
      · rw [Option.some.injEq] at h
        subst h
        exact ⟨(readerStep st i).1, rfl⟩
      · obtain ⟨tr, htr, rfl⟩ := Option.map_eq_some'.mp h
        obtain ⟨pre, rfl⟩ := ih _ _ htr
        exact ⟨(readerStep st i).1 ++ pre, by rw [List.append_assoc]⟩

/-- Witness for C8: a live reader sees EOF and errors out; a file reader
sees EOF, seeks and pushes the flush marker; a reader that observes the
stop flag exits and its trace ends with `signal_eof`. -/
theorem reader_run_spec_witness :
    readerStep ⟨true, false, ""⟩ ⟨false, ReadOutcome.eofRead, true, false⟩ =
      ([RAction.recordError "Stream ended"], ⟨true, true, "Stream ended"⟩, true) ∧
    readerStep ⟨false, false, ""⟩ ⟨false, ReadOutcome.eofRead, true, false⟩ =
      ([RAction.seekToStart, RAction.pushFlushMarker], ⟨false, false, ""⟩, false) ∧
    (∃ pre, [RAction.signalEof] = pre ++ [RAction.signalEof]) :=
  ⟨(reader_run_spec ⟨true, false, ""⟩ true false).1 rfl,
   (reader_run_spec ⟨false, false, ""⟩ true false).2.1 rfl,
   (reader_run_spec ⟨false, false, ""⟩ true false).2.2
     [⟨true, ReadOutcome.eofRead, true, false⟩] [RAction.signalEof] rfl⟩

/-- C9: the published `frames_decoded` never exceeds the private
`total_frames` at any point of the worker loop (publication happens only
at batch boundaries with the current total), and after the post-join drain
the final published value equals `total_frames` including the drained
frames. -/
theorem frames_published_spec (events : List DecodeEvent) (drained : Nat) :
    ((workerStates events).all fun s => decide (s.framesDecoded ≤ s.totalFrames)) = true ∧
    (joinFlush drained (workerFinal events)).framesDecoded =
      (joinFlush drained (workerFinal events)).totalFrames ∧
    (joinFlush drained (workerFinal events)).totalFrames =
      (workerFinal events).totalFrames + drained := by
  refine ⟨?_, rfl, rfl⟩
  rw [List.all_eq_true]
  have key : ∀ (l : List DecodeEvent) (s : WState), s.framesDecoded ≤ s.totalFrames →
      ∀ x ∈ l.scanl workerTick s, x.framesDecoded ≤ x.totalFrames := by
    intro l
    induction l with
    | nil =>
      intro s hs x hx
      simp only [List.scanl] at hx
      rw [List.mem_singleton] at hx
      subst hx
      exact hs
    | cons e l ih =>
      intro s hs x hx
      rw [List.scanl_cons, List.singleton_append, List.mem_cons] at hx
      rcases hx with rfl | hx
      · exact hs
      · refine ih (workerTick s e) ?_ x hx
        cases e with
        | noFrame => exact hs
        | frame =>
          simp only [workerTick]
          split
          · exact le_refl _
          · exact le_trans hs (Nat.le_succ _)
  intro x hx
  rw [decide_eq_true_eq]
  exact key events ⟨0, 0⟩ (le_refl 0) x hx

/-- C2: on the flush-marker sentinel, the pooled single-stream worker
calls `flush_buffers` and never submits the marker to
`decode_from_packet`; but `DecoderThread::run` submits the marker (a null
packet, i.e. a drain request) to `decode_from_packet` and never calls
`flush_buffers`, contradicting the queue's documented flush-marker
protocol. -/
theorem flush_marker_handling :
    workerLoopSingleHandle QItem.marker = WorkerAction.flushBuffers ∧
    decoderThreadHandle QItem.marker = WorkerAction.decodeFromPacket QItem.marker ∧
    decoderThreadHandle QItem.marker ≠ WorkerAction.flushBuffers :=
  ⟨rfl, rfl, by decide⟩

end VideoBench
